import Mathlib

/-!
Shallow embedding of the declarative finite state machine core (fsm.py):
the `Action`/`Guard` binding metadata, the construction pipeline
(`__get_states__`, `__create_state_map__`, `__create_lookup_table__`) and
the runtime (`get_state`, `transition`).

Modelling choices:
* State names are `String`s; callables (action/guard method bodies) are
  identified by a `Nat` id, and their observable behaviour is supplied to
  `transition` as an explicit environment (`Beh`): what each guard returns
  (a boolean or a non-boolean value) and whether each action raises.
* Python dicts are association lists with Python `dict.get`/`dict.update`
  semantics (`aget`/`aupd`); Python's falsiness test `if not d:` on a dict
  is the `isEmpty` test where the code performs it on a possibly-empty dict.
* Exceptions become `Except`/an error component of the result; the raise
  sites of `FiniteStateMachineError` are distinguished by constructor,
  mirroring the distinct messages in the source.
* The runtime additionally records the observable call trace (guard
  evaluations, action invocations with their event payload, and the final
  state commit), so that ordering claims can be stated.
-/

namespace Fsm

/-- Python `dict.get`: first (unique) binding of the key, if any. -/
def aget {β : Type} : List (String × β) → String → Option β
  | [], _ => none
  | (k', v') :: rest, k => if k = k' then some v' else aget rest k

/-- Python `dict.update` with a single key: replace in place or append. -/
def aupd {β : Type} : List (String × β) → String → β → List (String × β)
  | [], k, v => [(k, v)]
  | (k', v') :: rest, k, v =>
      if k = k' then (k, v) :: rest else (k', v') :: aupd rest k v

/-- Metadata attached to one state by `__create_state_map__`: the optional
`on_enter` action, `on_exit` action and `guard` entries of the per-state dict. -/
structure StateMetadata where
  on_enter : Option Nat
  on_exit : Option Nat
  guard : Option Nat
deriving DecidableEq, Repr

/-- The empty per-state dict (no keys set). -/
def emptyMeta : StateMetadata := ⟨none, none, none⟩

/-- One entry of the inner transition dict: the `beginning_state` and
`end_state` metadata records stored by `__create_lookup_table__`. -/
structure Trans where
  beginning_state : StateMetadata
  end_state : StateMetadata
deriving DecidableEq, Repr

/-- A method decorated with `@Action(state=..., on_enter=..., on_exit=...)`.
The decorator defaults are `on_enter = True`, `on_exit = False`. -/
structure ActionB where
  state : String
  on_enter : Bool
  on_exit : Bool
  id : Nat
deriving DecidableEq, Repr

/-- A method decorated with `@Guard(state=...)`. -/
structure GuardB where
  state : String
  id : Nat
deriving DecidableEq, Repr

/-- The distinct raise sites of `FiniteStateMachineError` during
construction, one constructor per message in the source. -/
inductive ConfigErr where
  | noTransitionsDeclared
  | unknownStateAction (s : String)
  | duplicateEnterAction (s : String)
  | duplicateExitAction (s : String)
  | unknownStateGuard (s : String)
  | duplicateGuard (s : String)
deriving DecidableEq, Repr

abbrev StateMap := List (String × StateMetadata)
abbrev Row := List (String × Trans)
abbrev Table := List (String × Row)

/-- `state_map.get(s)`; the default is unreachable for the states the
builder actually looks up, because `__create_state_map__` seeds every
declared state with an empty dict first. -/
def smGet (sm : StateMap) (s : String) : StateMetadata :=
  (aget sm s).getD emptyMeta

/-- Exception-free fold over `Except`, mirroring a Python `for` loop whose
body may raise: the first raise aborts the whole loop. -/
def foldE {σ α ε : Type} (f : σ → α → Except ε σ) : σ → List α → Except ε σ
  | s, [] => .ok s
  | s, a :: as =>
      match f s a with
      | .ok s' => foldE f s' as
      | .error e => .error e

/-- Body of the `for action in actions` loop of `__create_state_map__`:
unknown-state check, then the `on_enter` slot, then the `on_exit` slot.
The duplicate error fires whenever the slot is already occupied, whatever
the new action's flags are, exactly as the source's `else: raise` does. -/
def processAction (states : List String) (sm : StateMap) (a : ActionB) :
    Except ConfigErr StateMap :=
  if a.state ∈ states then
    let md := smGet sm a.state
    match md.on_enter with
    | some _ => .error (.duplicateEnterAction a.state)
    | none =>
        let md1 := if a.on_enter then { md with on_enter := some a.id } else md
        match md1.on_exit with
        | some _ => .error (.duplicateExitAction a.state)
        | none =>
            let md2 := if a.on_exit then { md1 with on_exit := some a.id } else md1
            .ok (aupd sm a.state md2)
  else .error (.unknownStateAction a.state)

/-- Body of the `for guard in guards` loop of `__create_state_map__`. -/
def processGuard (states : List String) (sm : StateMap) (g : GuardB) :
    Except ConfigErr StateMap :=
  if g.state ∈ states then
    let md := smGet sm g.state
    match md.guard with
    | some _ => .error (.duplicateGuard g.state)
    | none => .ok (aupd sm g.state { md with guard := some g.id })
  else .error (.unknownStateGuard g.state)

/-- The `for state in states` seeding loop of `__create_state_map__`:
every declared state gets an empty per-state dict. -/
def seedMap (states : List String) : StateMap :=
  states.foldl (fun m s => aupd m s emptyMeta) []

/-- `__create_state_map__`: seed every declared state with an empty dict,
then attach actions, then guards. -/
def createStateMap (actions : List ActionB) (guards : List GuardB)
    (states : List String) : Except ConfigErr StateMap :=
  match foldE (processAction states) (seedMap states) actions with
  | .error e => .error e
  | .ok sm1 => foldE (processGuard states) sm1 guards

/-- Append a state to the accumulator unless it is already present
(the `if begin not in states` pattern of `__get_states__`). -/
def addState (acc : List String) (s : String) : List String :=
  if s ∈ acc then acc else acc ++ [s]

/-- The state universe: the distinct endpoints of the transition list, in
order of first appearance. -/
def collectStates (ts : List (String × String)) : List String :=
  ts.foldl (fun acc p => addState (addState acc p.1) p.2) []

/-- `__get_states__`: fails when no transitions are declared, otherwise
returns the distinct endpoints. -/
def getStates (ts : List (String × String)) : Except ConfigErr (List String) :=
  if ts.isEmpty then .error .noTransitionsDeclared else .ok (collectStates ts)

/-- One iteration of the `for begin, end in self.transitions` loop of
`__create_lookup_table__`. A row that is absent (or empty, which Python's
`if not transitions:` treats the same) is created fresh; an existing
`(begin, end)` entry is left untouched because its two keys are already
present. -/
def tstep (sm : StateMap) (tbl : Table) (p : String × String) : Table :=
  match aget tbl p.1 with
  | none => aupd tbl p.1 [(p.2, ⟨smGet sm p.1, smGet sm p.2⟩)]
  | some r =>
      if r.isEmpty then aupd tbl p.1 [(p.2, ⟨smGet sm p.1, smGet sm p.2⟩)]
      else
        match aget r p.2 with
        | some _ => tbl
        | none => aupd tbl p.1 (aupd r p.2 ⟨smGet sm p.1, smGet sm p.2⟩)

/-- The loop of `__create_lookup_table__`. -/
def createLookupTable (sm : StateMap) (ts : List (String × String)) : Table :=
  ts.foldl (tstep sm) []

/-- The machine instance: the immutable transition table and the single
mutable field `__state__`. -/
structure Machine where
  table : Table
  state : String
deriving DecidableEq, Repr

/-- A machine subclass declaration: the `transitions` list, the decorated
methods, and the class-level `state` attribute read by `__init__`. -/
structure MachineSpec where
  transitions : List (String × String)
  actions : List ActionB
  guards : List GuardB
  initial : String
deriving Repr

/-- `FiniteStateMachine.__init__`: build the lookup table (which may raise
a configuration error) and set `__state__` to the declared initial state.
No validation of the initial state is performed. -/
def buildMachine (sp : MachineSpec) : Except ConfigErr Machine :=
  match getStates sp.transitions with
  | .error e => .error e
  | .ok states =>
      match createStateMap sp.actions sp.guards states with
      | .error e => .error e
      | .ok sm => .ok ⟨createLookupTable sm sp.transitions, sp.initial⟩

/-- What a guard callable returns when invoked: a boolean, or any
non-boolean value (which `transition` rejects). -/
inductive GuardRes where
  | isBool (b : Bool)
  | nonBool
deriving DecidableEq, Repr

/-- The observable behaviour of the callables bound to the machine:
what each guard id returns when called with no arguments, and whether each
action id raises when called with a given event payload. -/
structure Beh (E : Type) where
  guardRet : Nat → GuardRes
  actRaises : Nat → E → Bool

/-- One observable step of a `transition` call: a guard evaluation, an
exit/enter action invocation with its event payload, or the final
assignment to `__state__`. -/
inductive Step (E : Type) where
  | guardEval (g : Nat)
  | exitAct (a : Nat) (ev : E)
  | enterAct (a : Nat) (ev : E)
  | commitStep (s : String)
deriving DecidableEq, Repr

/-- The ways a `transition` call can terminate without committing: one of
the four `FiniteStateMachineError` raise sites in `transition`, or an
exception propagating out of a user action. -/
inductive TFail where
  | invalidCurrentState (s : String)
  | illegalTransition (f : String) (t : Option String)
  | guardContractViolation
  | guardRejected (f : String) (t : Option String)
  | actionException (a : Nat)
deriving DecidableEq, Repr

/-- The four `TransitionError`s proper (everything except a propagating
action exception). -/
def TFail.isTransErr : TFail → Bool
  | .actionException _ => false
  | _ => true

/-- Prefix a step onto the trace of a phase result. -/
def prependStep {E : Type} (s : Step E) :
    List (Step E) × Option TFail × String → List (Step E) × Option TFail × String
  | (tr, res, st) => (s :: tr, res, st)

/-- Lines 275–279 of `transition`: run the end state's `on_enter` action if
present, then commit `__state__ = to`. -/
def enterPhase {E : Type} (trn : Trans) (cur t : String) (ev : E) (beh : Beh E) :
    List (Step E) × Option TFail × String :=
  match trn.end_state.on_enter with
  | some a =>
      if beh.actRaises a ev then ([.enterAct a ev], some (.actionException a), cur)
      else ([.enterAct a ev, .commitStep t], none, t)
  | none => ([.commitStep t], none, t)

/-- Lines 272–274 of `transition`: run the beginning state's `on_exit`
action if present, then proceed to the enter phase. -/
def actPhase {E : Type} (trn : Trans) (cur t : String) (ev : E) (beh : Beh E) :
    List (Step E) × Option TFail × String :=
  match trn.beginning_state.on_exit with
  | some a =>
      if beh.actRaises a ev then ([.exitAct a ev], some (.actionException a), cur)
      else prependStep (.exitAct a ev) (enterPhase trn cur t ev beh)
  | none => enterPhase trn cur t ev beh

/-- Lines 263–271 of `transition`: evaluate the end state's guard if
present; a non-boolean return or a `False` aborts the call. -/
def runSteps {E : Type} (trn : Trans) (cur t : String) (ev : E) (beh : Beh E) :
    List (Step E) × Option TFail × String :=
  match trn.end_state.guard with
  | some g =>
      match beh.guardRet g with
      | .nonBool => ([.guardEval g], some .guardContractViolation, cur)
      | .isBool false => ([.guardEval g], some (.guardRejected cur (some t)), cur)
      | .isBool true => prependStep (.guardEval g) (actPhase trn cur t ev beh)
  | none => actPhase trn cur t ev beh

/-- `FiniteStateMachine.transition` on a raw table and current state:
the two lookups of lines 253–262, then guard, actions and commit. The
result is the call trace, the failure outcome (`none` means the call
returned normally), and the value of `__state__` after the call.
A `to` of `none` models calling `transition()` with the `to` argument
left at its `None` default: string-keyed rows never contain it. -/
def transitionF {E : Type} (tbl : Table) (cur : String) (toS : Option String)
    (ev : E) (beh : Beh E) : List (Step E) × Option TFail × String :=
  match aget tbl cur with
  | none => ([], some (.invalidCurrentState cur), cur)
  | some row =>
      if row.isEmpty then ([], some (.invalidCurrentState cur), cur)
      else
        match toS with
        | none => ([], some (.illegalTransition cur none), cur)
        | some t =>
            match aget row t with
            | none => ([], some (.illegalTransition cur (some t)), cur)
            | some trn => runSteps trn cur t ev beh

/-- `FiniteStateMachine.get_state`. -/
def Machine.get_state (m : Machine) : String := m.state

/-- `transition` as a method: only `__state__` can change. -/
def Machine.transition {E : Type} (m : Machine) (toS : Option String) (ev : E)
    (beh : Beh E) : List (Step E) × Option TFail × Machine :=
  let r := transitionF m.table m.state toS ev beh
  (r.1, r.2.1, ⟨m.table, r.2.2⟩)

/-! ### Association-list lemmas -/

theorem aget_aupd {β : Type} (l : List (String × β)) (k k' : String) (v : β) :
    aget (aupd l k v) k' = if k' = k then some v else aget l k' := by
  induction l with
  | nil => simp [aget, aupd]
  | cons hd tl ih =>
      obtain ⟨k0, v0⟩ := hd
      by_cases h0 : k = k0
      · subst h0
        by_cases h1 : k' = k <;> simp [aget, aupd, h1]
      · by_cases h1 : k' = k0
        · subst h1
          simp [aget, aupd, h0, Ne.symm h0]
        · simp [aget, aupd, h0, h1, ih]

theorem aget_nil_ne {β : Type} {l : List (String × β)} {k : String} {v : β}
    (h : aget l k = some v) : l ≠ [] := by
  intro hl; subst hl; simp [aget] at h

/-! ### `transition` never changes `__state__` on failure, and commits `to`
on success -/

theorem enterPhase_fail {E : Type} (trn : Trans) (cur t : String) (ev : E)
    (beh : Beh E) (f : TFail) (h : (enterPhase trn cur t ev beh).2.1 = some f) :
    (enterPhase trn cur t ev beh).2.2 = cur := by
  unfold enterPhase at h ⊢
  cases ha : trn.end_state.on_enter with
  | none => simp [ha] at h
  | some a =>
      by_cases hr : beh.actRaises a ev <;> simp [ha, hr] at h ⊢

theorem actPhase_fail {E : Type} (trn : Trans) (cur t : String) (ev : E)
    (beh : Beh E) (f : TFail) (h : (actPhase trn cur t ev beh).2.1 = some f) :
    (actPhase trn cur t ev beh).2.2 = cur := by
  unfold actPhase at h ⊢
  cases ha : trn.beginning_state.on_exit with
  | none =>
      simp only [ha] at h ⊢
      exact enterPhase_fail trn cur t ev beh f h
  | some a =>
      by_cases hr : beh.actRaises a ev
      · simp [ha, hr]
      · simp only [ha, hr, prependStep, Bool.false_eq_true, if_false] at h ⊢
        exact enterPhase_fail trn cur t ev beh f h

theorem runSteps_fail {E : Type} (trn : Trans) (cur t : String) (ev : E)
    (beh : Beh E) (f : TFail) (h : (runSteps trn cur t ev beh).2.1 = some f) :
    (runSteps trn cur t ev beh).2.2 = cur := by
  unfold runSteps at h ⊢
  cases hg : trn.end_state.guard with
  | none =>
      simp only [hg] at h ⊢
      exact actPhase_fail trn cur t ev beh f h
  | some g =>
      cases hr : beh.guardRet g with
      | nonBool => simp [hg, hr]
      | isBool b =>
          cases b
          · simp [hg, hr]
          · simp only [hg, hr, prependStep] at h ⊢
            exact actPhase_fail trn cur t ev beh f h

theorem transitionF_fail {E : Type} (tbl : Table) (cur : String)
    (toS : Option String) (ev : E) (beh : Beh E) (f : TFail)
    (h : (transitionF tbl cur toS ev beh).2.1 = some f) :
    (transitionF tbl cur toS ev beh).2.2 = cur := by
  unfold transitionF at h ⊢
  cases hrow : aget tbl cur with
  | none => simp
  | some row =>
      by_cases he : row.isEmpty
      · simp [hrow, he]
      · cases toS with
        | none => simp [hrow, he]
        | some t =>
            cases htr : aget row t with
            | none => simp [hrow, he, htr]
            | some trn =>
                simp only [hrow, he, htr, Bool.false_eq_true, if_false] at h ⊢
                exact runSteps_fail trn cur t ev beh f h

theorem enterPhase_ok {E : Type} (trn : Trans) (cur t : String) (ev : E)
    (beh : Beh E) (h : (enterPhase trn cur t ev beh).2.1 = none) :
    (enterPhase trn cur t ev beh).2.2 = t := by
  unfold enterPhase at h ⊢
  cases ha : trn.end_state.on_enter with
  | none => simp
  | some a =>
      by_cases hr : beh.actRaises a ev <;> simp [ha, hr] at h ⊢

theorem actPhase_ok {E : Type} (trn : Trans) (cur t : String) (ev : E)
    (beh : Beh E) (h : (actPhase trn cur t ev beh).2.1 = none) :
    (actPhase trn cur t ev beh).2.2 = t := by
  unfold actPhase at h ⊢
  cases ha : trn.beginning_state.on_exit with
  | none =>
      simp only [ha] at h ⊢
      exact enterPhase_ok trn cur t ev beh h
  | some a =>
      by_cases hr : beh.actRaises a ev
      · simp [ha, hr] at h
      · simp only [ha, hr, prependStep, Bool.false_eq_true, if_false] at h ⊢
        exact enterPhase_ok trn cur t ev beh h

theorem runSteps_ok {E : Type} (trn : Trans) (cur t : String) (ev : E)
    (beh : Beh E) (h : (runSteps trn cur t ev beh).2.1 = none) :
    (runSteps trn cur t ev beh).2.2 = t := by
  unfold runSteps at h ⊢
  cases hg : trn.end_state.guard with
  | none =>
      simp only [hg] at h ⊢
      exact actPhase_ok trn cur t ev beh h
  | some g =>
      cases hr : beh.guardRet g with
      | nonBool => simp [hg, hr] at h
      | isBool b =>
          cases b
          · simp [hg, hr] at h
          · simp only [hg, hr, prependStep] at h ⊢
            exact actPhase_ok trn cur t ev beh h

theorem transitionF_ok {E : Type} (tbl : Table) (cur : String)
    (toS : Option String) (ev : E) (beh : Beh E)
    (h : (transitionF tbl cur toS ev beh).2.1 = none) :
    toS = some (transitionF tbl cur toS ev beh).2.2 := by
  unfold transitionF at h ⊢
  cases hrow : aget tbl cur with
  | none => simp [hrow] at h
  | some row =>
      by_cases he : row.isEmpty
      · simp [hrow, he] at h
      · cases toS with
        | none => simp [hrow, he] at h
        | some t =>
            cases htr : aget row t with
            | none => simp [hrow, he, htr] at h
            | some trn =>
                simp only [hrow, he, htr, Bool.false_eq_true, if_false] at h ⊢
                exact congrArg some (runSteps_ok trn cur t ev beh h).symm

/-! ### Characterization of the built lookup table -/

/-- Two-level lookup: the inner transition entry of `(b, e)`, if any. -/
def pairGet (tbl : Table) (b e : String) : Option Trans :=
  (aget tbl b).bind (fun r => aget r e)

/-- Every row stored in the table is non-empty. -/
def goodTbl (tbl : Table) : Prop :=
  ∀ b r, aget tbl b = some r → r ≠ []

theorem goodTbl_nil : goodTbl [] := by
  intro b r h; simp [aget] at h

theorem tstep_good (sm : StateMap) (tbl : Table) (p : String × String)
    (hg : goodTbl tbl) : goodTbl (tstep sm tbl p) := by
  intro b r hr
  unfold tstep at hr
  cases h0 : aget tbl p.1 with
  | none =>
      rw [h0] at hr
      rw [aget_aupd] at hr
      by_cases hb : b = p.1
      · rw [if_pos hb] at hr
        cases hr; simp
      · rw [if_neg hb] at hr
        exact hg b r hr
  | some r0 =>
      simp only [h0] at hr
      by_cases he : r0.isEmpty
      · rw [if_pos he] at hr
        rw [aget_aupd] at hr
        by_cases hb : b = p.1
        · rw [if_pos hb] at hr; cases hr; simp
        · rw [if_neg hb] at hr; exact hg b r hr
      · rw [if_neg he] at hr
        cases h1 : aget r0 p.2 with
        | some _ => rw [h1] at hr; exact hg b r hr
        | none =>
            rw [h1] at hr
            rw [aget_aupd] at hr
            by_cases hb : b = p.1
            · rw [if_pos hb] at hr
              cases hr
              intro hnil
              have := aget_aupd r0 p.2 p.2 (⟨smGet sm p.1, smGet sm p.2⟩ : Trans)
              rw [hnil] at this
              simp [aget] at this
            · rw [if_neg hb] at hr; exact hg b r hr

theorem fold_good (sm : StateMap) (ts : List (String × String)) :
    ∀ tbl, goodTbl tbl → goodTbl (ts.foldl (tstep sm) tbl) := by
  induction ts with
  | nil => intro tbl h; simpa using h
  | cons p ps ih =>
      intro tbl h
      simpa using ih (tstep sm tbl p) (tstep_good sm tbl p h)

theorem createLookupTable_good (sm : StateMap) (ts : List (String × String)) :
    goodTbl (createLookupTable sm ts) :=
  fold_good sm ts [] goodTbl_nil

theorem tstep_outer (sm : StateMap) (tbl : Table) (p : String × String)
    (b : String) :
    (aget (tstep sm tbl p) b).isSome = true ↔
      (b = p.1 ∨ (aget tbl b).isSome = true) := by
  unfold tstep
  cases h0 : aget tbl p.1 with
  | none =>
      rw [aget_aupd]
      by_cases hb : b = p.1
      · subst hb; simp [h0]
      · simp [hb]
  | some r0 =>
      simp only [h0]
      by_cases he : r0.isEmpty
      · rw [if_pos he, aget_aupd]
        by_cases hb : b = p.1
        · subst hb; simp [h0]
        · simp [hb]
      · rw [if_neg he]
        cases h1 : aget r0 p.2 with
        | some _ =>
            constructor
            · intro hx; right; exact hx
            · intro hx
              rcases hx with hb | hx
              · subst hb; simp [h0]
              · exact hx
        | none =>
            rw [aget_aupd]
            by_cases hb : b = p.1
            · subst hb; simp [h0]
            · simp [hb]

theorem fold_outer (sm : StateMap) (ts : List (String × String)) :
    ∀ tbl b, (aget (ts.foldl (tstep sm) tbl) b).isSome = true ↔
      (b ∈ ts.map Prod.fst ∨ (aget tbl b).isSome = true) := by
  induction ts with
  | nil => intro tbl b; simp
  | cons p ps ih =>
      intro tbl b
      have step := tstep_outer sm tbl p b
      simp only [List.foldl_cons, List.map_cons, List.mem_cons]
      rw [ih (tstep sm tbl p) b, step]
      tauto

theorem createLookupTable_outer (sm : StateMap) (ts : List (String × String))
    (b : String) :
    (aget (createLookupTable sm ts) b).isSome = true ↔ b ∈ ts.map Prod.fst := by
  have := fold_outer sm ts [] b
  simpa [createLookupTable, aget] using this

theorem isEmpty_false_of_aget {β : Type} {r : List (String × β)} {k : String}
    {v : β} (h : aget r k = some v) : r.isEmpty = false := by
  cases r with
  | nil => simp [aget] at h
  | cons hd tl => rfl

theorem tstep_pair (sm : StateMap) (tbl : Table) (p : String × String)
    (b e : String) (hg : goodTbl tbl) :
    (pairGet (tstep sm tbl p) b e).isSome = true ↔
      ((b = p.1 ∧ e = p.2) ∨ (pairGet tbl b e).isSome = true) := by
  unfold tstep
  cases h0 : aget tbl p.1 with
  | none =>
      by_cases hb : b = p.1
      · subst hb
        by_cases hE : e = p.2
        · subst hE; simp [pairGet, aget_aupd, h0, aget]
        · simp [pairGet, aget_aupd, h0, aget, hE]
      · simp [pairGet, aget_aupd, hb]
  | some r0 =>
      have hne : r0.isEmpty = false := by
        have := hg p.1 r0 h0
        cases r0
        · exact absurd rfl this
        · rfl
      simp only [h0, hne, Bool.false_eq_true, if_false]
      cases h1 : aget r0 p.2 with
      | some v =>
          constructor
          · intro hx; right; exact hx
          · intro hx
            rcases hx with ⟨hb, hE⟩ | hx
            · subst hb; subst hE; simp [pairGet, h0, h1]
            · exact hx
      | none =>
          by_cases hb : b = p.1
          · subst hb
            by_cases hE : e = p.2
            · subst hE; simp [pairGet, aget_aupd, h0, h1]
            · simp [pairGet, aget_aupd, h0, hE]
          · simp [pairGet, aget_aupd, hb]

theorem fold_pair (sm : StateMap) (ts : List (String × String)) :
    ∀ tbl b e, goodTbl tbl →
      ((pairGet (ts.foldl (tstep sm) tbl) b e).isSome = true ↔
        ((b, e) ∈ ts ∨ (pairGet tbl b e).isSome = true)) := by
  induction ts with
  | nil => intro tbl b e _; simp
  | cons p ps ih =>
      intro tbl b e hg
      simp only [List.foldl_cons, List.mem_cons]
      rw [ih (tstep sm tbl p) b e (tstep_good sm tbl p hg), tstep_pair sm tbl p b e hg]
      constructor
      · rintro (hx | (⟨hb, hE⟩ | hx))
        · exact Or.inl (Or.inr hx)
        · left; left; subst hb; subst hE; rfl
        · exact Or.inr hx
      · rintro ((hbe | hx) | hx)
        · right; left
          exact ⟨congrArg Prod.fst hbe, congrArg Prod.snd hbe⟩
        · exact Or.inl hx
        · right; right; exact hx

theorem createLookupTable_pair (sm : StateMap) (ts : List (String × String))
    (b e : String) :
    (pairGet (createLookupTable sm ts) b e).isSome = true ↔ (b, e) ∈ ts := by
  have := fold_pair sm ts [] b e goodTbl_nil
  simpa [createLookupTable, pairGet, aget] using this

/-! ### Duplicate transition pairs are no-ops -/

theorem tstep_already (sm : StateMap) (tbl : Table) (p : String × String)
    (h : (pairGet tbl p.1 p.2).isSome = true) : tstep sm tbl p = tbl := by
  unfold tstep
  cases h0 : aget tbl p.1 with
  | none => simp [pairGet, h0] at h
  | some r0 =>
      simp only [pairGet, h0] at h
      simp only [Option.some_bind] at h
      cases h1 : aget r0 p.2 with
      | none => simp [h1] at h
      | some v =>
          have hne : r0.isEmpty = false := isEmpty_false_of_aget h1
          simp [hne, h1]

theorem tstep_now (sm : StateMap) (tbl : Table) (p : String × String) :
    (pairGet (tstep sm tbl p) p.1 p.2).isSome = true := by
  unfold tstep
  cases h0 : aget tbl p.1 with
  | none => simp [pairGet, aget_aupd, aget]
  | some r0 =>
      simp only [h0]
      by_cases he : r0.isEmpty
      · simp [he, pairGet, aget_aupd, aget]
      · simp only [he, Bool.false_eq_true, if_false]
        cases h1 : aget r0 p.2 with
        | some v => simp [pairGet, h0, h1]
        | none => simp [pairGet, aget_aupd]

theorem tstep_pair_mono (sm : StateMap) (tbl : Table) (p : String × String)
    (b e : String) (h : (pairGet tbl b e).isSome = true) :
    (pairGet (tstep sm tbl p) b e).isSome = true := by
  cases hb0 : aget tbl b with
  | none => simp [pairGet, hb0] at h
  | some rb =>
      simp only [pairGet, hb0] at h
      simp only [Option.some_bind] at h
      unfold tstep
      cases h0 : aget tbl p.1 with
      | none =>
          by_cases hb : b = p.1
          · subst hb; rw [hb0] at h0; cases h0
          · simp [pairGet, aget_aupd, hb, hb0, h]
      | some r0 =>
          simp only [h0]
          by_cases he : r0.isEmpty
          · by_cases hb : b = p.1
            · subst hb
              rw [hb0] at h0
              cases h0
              have : rb = [] := by
                cases rb
                · rfl
                · simp [List.isEmpty] at he
              rw [this] at h
              simp [aget] at h
            · simp [he, pairGet, aget_aupd, hb, hb0, h]
          · simp only [he, Bool.false_eq_true, if_false]
            cases h1 : aget r0 p.2 with
            | some v => simp [pairGet, hb0, h]
            | none =>
                by_cases hb : b = p.1
                · subst hb
                  rw [hb0] at h0
                  cases h0
                  by_cases hE : e = p.2
                  · subst hE; simp [pairGet, aget_aupd]
                  · simp [pairGet, aget_aupd, hE, h]
                · simp [pairGet, aget_aupd, hb, hb0, h]

/-- Remove later occurrences of pairs already seen (first occurrence kept). -/
def pdedupA (seen : List (String × String)) :
    List (String × String) → List (String × String)
  | [] => []
  | p :: ps => if p ∈ seen then pdedupA seen ps else p :: pdedupA (p :: seen) ps

/-- The transition list with duplicate `(begin, end)` pairs removed. -/
def pdedup (ts : List (String × String)) : List (String × String) :=
  pdedupA [] ts

theorem fold_tstep_dedup (sm : StateMap) :
    ∀ (ts : List (String × String)) (tbl : Table) (seen : List (String × String)),
      (∀ q ∈ seen, (pairGet tbl q.1 q.2).isSome = true) →
      ts.foldl (tstep sm) tbl = (pdedupA seen ts).foldl (tstep sm) tbl := by
  intro ts
  induction ts with
  | nil => intro tbl seen _; rfl
  | cons p ps ih =>
      intro tbl seen hinv
      by_cases hp : p ∈ seen
      · have hstep : tstep sm tbl p = tbl := tstep_already sm tbl p (hinv p hp)
        simp only [pdedupA, if_pos hp, List.foldl_cons, hstep]
        exact ih tbl seen hinv
      · simp only [pdedupA, if_neg hp, List.foldl_cons]
        apply ih (tstep sm tbl p) (p :: seen)
        intro q hq
        rcases List.mem_cons.mp hq with hq | hq
        · rw [hq]; exact tstep_now sm tbl p
        · exact tstep_pair_mono sm tbl p q.1 q.2 (hinv q hq)

theorem createLookupTable_dedup (sm : StateMap) (ts : List (String × String)) :
    createLookupTable sm ts = createLookupTable sm (pdedup ts) := by
  unfold createLookupTable pdedup
  apply fold_tstep_dedup
  intro q hq
  simp at hq

/-! ### The state universe -/

theorem mem_addState (acc : List String) (x y : String) :
    y ∈ addState acc x ↔ (y ∈ acc ∨ y = x) := by
  unfold addState
  by_cases h : x ∈ acc
  · rw [if_pos h]
    constructor
    · intro hy; exact Or.inl hy
    · rintro (hy | hy)
      · exact hy
      · rw [hy]; exact h
  · rw [if_neg h]
    simp

theorem mem_collectStates_fold (ts : List (String × String)) :
    ∀ acc s, s ∈ ts.foldl (fun a p => addState (addState a p.1) p.2) acc ↔
      (s ∈ acc ∨ ∃ p ∈ ts, s = p.1 ∨ s = p.2) := by
  induction ts with
  | nil => intro acc s; simp
  | cons p ps ih =>
      intro acc s
      simp only [List.foldl_cons]
      rw [ih]
      rw [mem_addState, mem_addState]
      constructor
      · rintro (((hs | hs) | hs) | ⟨q, hq, hc⟩)
        · exact Or.inl hs
        · exact Or.inr ⟨p, List.mem_cons_self p ps, Or.inl hs⟩
        · exact Or.inr ⟨p, List.mem_cons_self p ps, Or.inr hs⟩
        · exact Or.inr ⟨q, List.mem_cons_of_mem p hq, hc⟩
      · rintro (hs | ⟨q, hq, hc⟩)
        · exact Or.inl (Or.inl (Or.inl hs))
        · rcases List.mem_cons.mp hq with hq | hq
          · subst hq
            rcases hc with hc | hc
            · exact Or.inl (Or.inl (Or.inr hc))
            · exact Or.inl (Or.inr hc)
          · exact Or.inr ⟨q, hq, hc⟩

theorem mem_collectStates (ts : List (String × String)) (s : String) :
    s ∈ collectStates ts ↔ ∃ p ∈ ts, s = p.1 ∨ s = p.2 := by
  unfold collectStates
  rw [mem_collectStates_fold]
  simp

theorem collectStates_dedup :
    ∀ (ts : List (String × String)) (acc : List String)
      (seen : List (String × String)),
      (∀ q ∈ seen, q.1 ∈ acc ∧ q.2 ∈ acc) →
      ts.foldl (fun a p => addState (addState a p.1) p.2) acc =
        (pdedupA seen ts).foldl (fun a p => addState (addState a p.1) p.2) acc := by
  intro ts
  induction ts with
  | nil => intro acc seen _; rfl
  | cons p ps ih =>
      intro acc seen hinv
      by_cases hp : p ∈ seen
      · have h1 : p.1 ∈ acc := (hinv p hp).1
        have h2 : p.2 ∈ acc := (hinv p hp).2
        have e1 : addState acc p.1 = acc := by unfold addState; rw [if_pos h1]
        have e2 : addState (addState acc p.1) p.2 = acc := by
          rw [e1]; unfold addState; rw [if_pos h2]
        simp only [pdedupA, if_pos hp, List.foldl_cons, e2]
        exact ih acc seen hinv
      · simp only [pdedupA, if_neg hp, List.foldl_cons]
        apply ih (addState (addState acc p.1) p.2) (p :: seen)
        intro q hq
        rcases List.mem_cons.mp hq with hq | hq
        · subst hq
          constructor
          · rw [mem_addState, mem_addState]
            exact Or.inl (Or.inr rfl)
          · rw [mem_addState]
            exact Or.inr rfl
        · have := hinv q hq
          constructor
          · rw [mem_addState, mem_addState]
            exact Or.inl (Or.inl this.1)
          · rw [mem_addState, mem_addState]
            exact Or.inl (Or.inl this.2)

theorem getStates_dedup (ts : List (String × String)) :
    getStates ts = getStates (pdedup ts) := by
  cases ts with
  | nil => rfl
  | cons p ps =>
      unfold getStates
      have h1 : (p :: ps).isEmpty = false := rfl
      have h2 : (pdedup (p :: ps)).isEmpty = false := by
        unfold pdedup pdedupA
        simp
      rw [h1, h2]
      simp only [Bool.false_eq_true, if_false]
      unfold collectStates
      rw [collectStates_dedup (p :: ps) [] []]
      · rfl
      · intro q hq; simp at hq

/-! ### Construction-error lemmas -/

theorem foldE_append {σ α ε : Type} (f : σ → α → Except ε σ) (s : σ)
    (l1 l2 : List α) :
    foldE f s (l1 ++ l2) =
      match foldE f s l1 with
      | .ok s' => foldE f s' l2
      | .error e => .error e := by
  induction l1 generalizing s with
  | nil => simp [foldE]
  | cons x rest ih =>
      simp only [List.cons_append, foldE]
      cases f s x with
      | ok s' => exact ih s'
      | error e => rfl

theorem processAction_bad (states : List String) (sm : StateMap) (a : ActionB)
    (h : a.state ∉ states) :
    processAction states sm a = .error (.unknownStateAction a.state) := by
  simp [processAction, h]

theorem processGuard_bad (states : List String) (sm : StateMap) (g : GuardB)
    (h : g.state ∉ states) :
    processGuard states sm g = .error (.unknownStateGuard g.state) := by
  simp [processGuard, h]

theorem processAction_ok_mem (states : List String) (sm sm' : StateMap)
    (a : ActionB) (h : processAction states sm a = .ok sm') :
    a.state ∈ states := by
  by_contra hmem
  rw [processAction_bad states sm a hmem] at h
  cases h

theorem processGuard_ok_mem (states : List String) (sm sm' : StateMap)
    (g : GuardB) (h : processGuard states sm g = .ok sm') :
    g.state ∈ states := by
  by_contra hmem
  rw [processGuard_bad states sm g hmem] at h
  cases h

theorem foldE_actions_err (states : List String) :
    ∀ (acts : List ActionB) (sm : StateMap) (a : ActionB), a ∈ acts →
      a.state ∉ states →
      ∃ e, foldE (processAction states) sm acts = .error e := by
  intro acts
  induction acts with
  | nil => intro sm a ha; cases ha
  | cons x rest ih =>
      intro sm a ha hbad
      cases hx : processAction states sm x with
      | error e => exact ⟨e, by simp [foldE, hx]⟩
      | ok sm' =>
          rcases List.mem_cons.mp ha with hax | hax
          · exfalso
            rw [hax] at hbad
            exact hbad (processAction_ok_mem states sm sm' x hx)
          · obtain ⟨e, he⟩ := ih sm' a hax hbad
            exact ⟨e, by simp [foldE, hx, he]⟩

theorem foldE_guards_err (states : List String) :
    ∀ (gs : List GuardB) (sm : StateMap) (g : GuardB), g ∈ gs →
      g.state ∉ states →
      ∃ e, foldE (processGuard states) sm gs = .error e := by
  intro gs
  induction gs with
  | nil => intro sm g hg; cases hg
  | cons x rest ih =>
      intro sm g hg hbad
      cases hx : processGuard states sm x with
      | error e => exact ⟨e, by simp [foldE, hx]⟩
      | ok sm' =>
          rcases List.mem_cons.mp hg with hgx | hgx
          · exfalso
            rw [hgx] at hbad
            exact hbad (processGuard_ok_mem states sm sm' x hx)
          · obtain ⟨e, he⟩ := ih sm' g hgx hbad
            exact ⟨e, by simp [foldE, hx, he]⟩

theorem foldE_actions_ok_mem (states : List String) :
    ∀ (acts : List ActionB) (sm sm' : StateMap),
      foldE (processAction states) sm acts = .ok sm' →
      ∀ a ∈ acts, a.state ∈ states := by
  intro acts
  induction acts with
  | nil => intro sm sm' _ a ha; cases ha
  | cons x rest ih =>
      intro sm sm' hfold a ha
      simp only [foldE] at hfold
      cases hx : processAction states sm x with
      | error e => rw [hx] at hfold; cases hfold
      | ok sm1 =>
          rw [hx] at hfold
          rcases List.mem_cons.mp ha with hax | hax
          · rw [hax]; exact processAction_ok_mem states sm sm1 x hx
          · exact ih sm1 sm' hfold a hax

theorem foldE_guards_ok_mem (states : List String) :
    ∀ (gs : List GuardB) (sm sm' : StateMap),
      foldE (processGuard states) sm gs = .ok sm' →
      ∀ g ∈ gs, g.state ∈ states := by
  intro gs
  induction gs with
  | nil => intro sm sm' _ g hg; cases hg
  | cons x rest ih =>
      intro sm sm' hfold g hg
      simp only [foldE] at hfold
      cases hx : processGuard states sm x with
      | error e => rw [hx] at hfold; cases hfold
      | ok sm1 =>
          rw [hx] at hfold
          rcases List.mem_cons.mp hg with hgx | hgx
          · rw [hgx]; exact processGuard_ok_mem states sm sm1 x hx
          · exact ih sm1 sm' hfold g hgx

theorem buildMachine_ok (sp : MachineSpec) (m : Machine)
    (h : buildMachine sp = .ok m) :
    ∃ us sm, getStates sp.transitions = .ok us ∧
      createStateMap sp.actions sp.guards us = .ok sm ∧
      m = ⟨createLookupTable sm sp.transitions, sp.initial⟩ := by
  unfold buildMachine at h
  cases hus : getStates sp.transitions with
  | error e => rw [hus] at h; cases h
  | ok us =>
      simp only [hus] at h
      cases hsm : createStateMap sp.actions sp.guards us with
      | error e => simp only [hsm] at h; cases h
      | ok sm =>
          simp only [hsm] at h
          cases h
          exact ⟨us, sm, rfl, hsm, rfl⟩

theorem getStates_ok (ts : List (String × String)) (us : List String)
    (h : getStates ts = .ok us) : us = collectStates ts := by
  unfold getStates at h
  by_cases he : ts.isEmpty
  · rw [if_pos he] at h; cases h
  · rw [if_neg he] at h; cases h; rfl

theorem createStateMap_ok (actions : List ActionB) (guards : List GuardB)
    (states : List String) (sm : StateMap)
    (h : createStateMap actions guards states = .ok sm) :
    ∃ sm1, foldE (processAction states) (seedMap states) actions = .ok sm1 ∧
      foldE (processGuard states) sm1 guards = .ok sm := by
  unfold createStateMap at h
  cases hact : foldE (processAction states) (seedMap states) actions with
  | error e => rw [hact] at h; cases h
  | ok sm1 => rw [hact] at h; exact ⟨sm1, rfl, h⟩

/-! ### Spec-side formulation of the fixed step order (refinement target) -/

/-- Outcome of one of the spec's ordered steps: skipped (metadata absent),
performed successfully, or performed and aborting the call. -/
inductive PhaseOutcome (E : Type) where
  | skip
  | okStep (s : Step E)
  | failStep (s : Step E) (f : TFail)

/-- Transcription of the specification's fixed, total step order for one
`transition` call on a declared pair (steps 3–6 of the spec's executor
contract): guard evaluation, then the begin state's exit action, then the
end state's enter action, then the commit of `current_state`; a step is
skipped exactly when its metadata is absent. -/
def specPhases {E : Type} (trn : Trans) (cur t : String) (ev : E)
    (beh : Beh E) : List (PhaseOutcome E) :=
  [ match trn.end_state.guard with
    | none => .skip
    | some g =>
        match beh.guardRet g with
        | .nonBool => .failStep (.guardEval g) .guardContractViolation
        | .isBool false => .failStep (.guardEval g) (.guardRejected cur (some t))
        | .isBool true => .okStep (.guardEval g),
    match trn.beginning_state.on_exit with
    | none => .skip
    | some a =>
        if beh.actRaises a ev then .failStep (.exitAct a ev) (.actionException a)
        else .okStep (.exitAct a ev),
    match trn.end_state.on_enter with
    | none => .skip
    | some a =>
        if beh.actRaises a ev then .failStep (.enterAct a ev) (.actionException a)
        else .okStep (.enterAct a ev),
    .okStep (.commitStep t) ]

/-- Run the spec's ordered steps in sequence: a skipped step leaves no
record, a successful step is recorded and the run continues, a failing step
is recorded and aborts the run with `current_state` left at `cur`; running
off the end of the list means every step (the commit included) succeeded. -/
def runPhases {E : Type} (cur t : String) :
    List (PhaseOutcome E) → List (Step E) × Option TFail × String
  | [] => ([], none, t)
  | .skip :: rest => runPhases cur t rest
  | .okStep s :: rest => prependStep s (runPhases cur t rest)
  | .failStep s f :: _ => ([s], some f, cur)

/-- The spec's ordered-run semantics for a declared `(cur, t)` pair. -/
def specStepOrder {E : Type} (trn : Trans) (cur t : String) (ev : E)
    (beh : Beh E) : List (Step E) × Option TFail × String :=
  runPhases cur t (specPhases trn cur t ev beh)

theorem runSteps_eq_spec {E : Type} (trn : Trans) (cur t : String) (ev : E)
    (beh : Beh E) : runSteps trn cur t ev beh = specStepOrder trn cur t ev beh := by
  unfold runSteps specStepOrder specPhases actPhase enterPhase
  cases hg : trn.end_state.guard with
  | some g =>
      cases hr : beh.guardRet g with
      | nonBool => simp [hr, runPhases]
      | isBool b =>
          cases b
          · simp [hr, runPhases]
          · cases hx : trn.beginning_state.on_exit with
            | some a =>
                by_cases hra : beh.actRaises a ev
                · simp [hr, hra, runPhases, prependStep]
                · cases hn : trn.end_state.on_enter with
                  | some a2 =>
                      by_cases hrn : beh.actRaises a2 ev
                      · simp [hr, hra, hrn, runPhases, prependStep]
                      · simp [hr, hra, hrn, runPhases, prependStep]
                  | none => simp [hr, hra, runPhases, prependStep]
            | none =>
                cases hn : trn.end_state.on_enter with
                | some a2 =>
                    by_cases hrn : beh.actRaises a2 ev
                    · simp [hr, hrn, runPhases, prependStep]
                    · simp [hr, hrn, runPhases, prependStep]
                | none => simp [hr, runPhases, prependStep]
  | none =>
      cases hx : trn.beginning_state.on_exit with
      | some a =>
          by_cases hra : beh.actRaises a ev
          · simp [hra, runPhases, prependStep]
          · cases hn : trn.end_state.on_enter with
            | some a2 =>
                by_cases hrn : beh.actRaises a2 ev
                · simp [hra, hrn, runPhases, prependStep]
                · simp [hra, hrn, runPhases, prependStep]
            | none => simp [hra, runPhases, prependStep]
      | none =>
          cases hn : trn.end_state.on_enter with
          | some a2 =>
              by_cases hrn : beh.actRaises a2 ev
              · simp [hrn, runPhases, prependStep]
              · simp [hrn, runPhases, prependStep]
          | none => simp [runPhases, prependStep]

theorem transitionF_declared {E : Type} (tbl : Table) (cur : String)
    (row : Row) (t : String) (trn : Trans) (ev : E) (beh : Beh E)
    (h1 : aget tbl cur = some row) (h2 : row.isEmpty = false)
    (h3 : aget row t = some trn) :
    transitionF tbl cur (some t) ev beh = runSteps trn cur t ev beh := by
  unfold transitionF
  simp [h1, h2, h3]

theorem transitionF_ok_pair {E : Type} (tbl : Table) (cur t : String)
    (ev : E) (beh : Beh E)
    (h : (transitionF tbl cur (some t) ev beh).2.1 = none) :
    (pairGet tbl cur t).isSome = true := by
  unfold transitionF at h
  cases hrow : aget tbl cur with
  | none => simp [hrow] at h
  | some row =>
      by_cases he : row.isEmpty
      · simp [hrow, he] at h
      · cases htr : aget row t with
        | none => simp [hrow, he, htr] at h
        | some trn => simp [pairGet, hrow, htr]

/-- Behaviour in which every guard accepts and no action raises. -/
def behW : Beh Nat := ⟨fun _ => .isBool true, fun _ _ => false⟩

/-- Behaviour in which every guard accepts and every action raises. -/
def behRaise : Beh Nat := ⟨fun _ => .isBool true, fun _ _ => true⟩

/-- Behaviour in which every guard returns a non-boolean value. -/
def behNB : Beh Nat := ⟨fun _ => .nonBool, fun _ _ => false⟩

/-- Declaration of a minimal machine: one transition `a → b`, no actions,
no guards, initial state `a`. -/
def spW : MachineSpec := ⟨[("a", "b")], [], [], "a"⟩

/-- The machine `spW` builds. -/
def mW : Machine := ⟨[("a", [("b", ⟨emptyMeta, emptyMeta⟩)])], "a"⟩

/-- A table entry whose begin state has exit action `1` and whose end state
has enter action `2` and guard `10`. -/
def trnW : Trans := ⟨⟨none, some 1, none⟩, ⟨some 2, none, some 10⟩⟩

/-- A one-pair raw table carrying `trnW`. -/
def tblW : Table := [("a", [("b", trnW)])]

/-! ## Claim theorems -/

/-- Claim C1: every `transition` call that fails with one of the four
transition errors (invalid current state, illegal transition, guard
rejected, guard contract violation) leaves the machine unchanged —
`get_state` before equals `get_state` after — and the machine remains
usable: any subsequent `transition` call behaves exactly as it would have
without the failed call. -/
theorem c1_transition_error_keeps_machine {E : Type} (m : Machine)
    (toS : Option String) (ev : E) (beh : Beh E) (tr : List (Step E))
    (f : TFail) (m' : Machine)
    (h : m.transition toS ev beh = (tr, some f, m'))
    (hf : f.isTransErr = true) :
    m' = m ∧ ∀ (toS2 : Option String) (ev2 : E) (beh2 : Beh E),
      m'.transition toS2 ev2 beh2 = m.transition toS2 ev2 beh2 := by
  have hm' : m' = ⟨m.table, (transitionF m.table m.state toS ev beh).2.2⟩ := by
    have hc := congrArg (fun x => x.2.2) h
    simpa [Machine.transition] using hc.symm
  have hres : (transitionF m.table m.state toS ev beh).2.1 = some f := by
    have hc := congrArg (fun x => x.2.1) h
    simp only [Machine.transition] at hc
    exact hc
  have hst := transitionF_fail m.table m.state toS ev beh f hres
  have hmm : m' = m := by rw [hm', hst]
  exact ⟨hmm, fun toS2 ev2 beh2 => by rw [hmm]⟩

/-- Witness for C1 at a concrete machine: from state `a`, asking for the
undeclared transition `a → a` fails with the illegal-transition error and
the machine is returned unchanged. -/
theorem c1_witness :
    mW.transition (some "a") (0 : Nat) behW =
      (([] : List (Step Nat)), some (.illegalTransition "a" (some "a")), mW)
    ∧ (mW = mW ∧ ∀ (toS2 : Option String) (ev2 : Nat) (beh2 : Beh Nat),
        mW.transition toS2 ev2 beh2 = mW.transition toS2 ev2 beh2) :=
  ⟨rfl, c1_transition_error_keeps_machine mW (some "a") 0 behW []
    (.illegalTransition "a" (some "a")) mW rfl rfl⟩

theorem transition_success_state {E : Type} (m : Machine) (S : String)
    (ev : E) (beh : Beh E) (tr : List (Step E)) (m' : Machine)
    (h : m.transition (some S) ev beh = (tr, none, m')) :
    m'.get_state = S := by
  have hres : (transitionF m.table m.state (some S) ev beh).2.1 = none := by
    have hc := congrArg (fun x => x.2.1) h
    simp only [Machine.transition] at hc
    exact hc
  have hok := transitionF_ok m.table m.state (some S) ev beh hres
  have hm' : m'.state = (transitionF m.table m.state (some S) ev beh).2.2 := by
    have hc := congrArg (fun x => x.2.2) h
    simp only [Machine.transition] at hc
    rw [← hc]
  have hS : S = (transitionF m.table m.state (some S) ev beh).2.2 :=
    Option.some.inj hok
  rw [Machine.get_state, hm', ← hS]

/-- Claim C2: if `transition(to=S, event=E)` returns without error, an
immediately following `get_state()` returns `S`. -/
theorem c2_success_round_trip {E : Type} (m : Machine) (S : String) (ev : E)
    (beh : Beh E) (tr : List (Step E)) (m' : Machine)
    (h : m.transition (some S) ev beh = (tr, none, m')) :
    m'.get_state = S :=
  transition_success_state m S ev beh tr m' h

/-- Witness for C2: the declared transition `a → b` succeeds on `mW` and
`get_state` then returns `b`. -/
theorem c2_witness : (⟨mW.table, "b"⟩ : Machine).get_state = "b" :=
  c2_success_round_trip mW "b" (0 : Nat) behW [Step.commitStep "b"]
    ⟨mW.table, "b"⟩ rfl

/-- Claim C3 (code bug): declaring one enter action (`on_enter=True,
on_exit=False`) and one distinct exit action (`on_enter=False,
on_exit=True`) on the same state is rejected by `__create_state_map__` in
both registration orders — with the duplicate-enter-action error when the
enter action is registered first and the duplicate-exit-action error when
the exit action is registered first — although only one binding of each
kind is declared, contradicting the claim (and the source's own
"can only have one action declared for on_enter/on_exit" messages). -/
theorem c3_enter_plus_exit_rejected :
    buildMachine ⟨[("a", "b")], [⟨"b", true, false, 1⟩, ⟨"b", false, true, 2⟩], [], "a"⟩
        = .error (.duplicateEnterAction "b")
    ∧ buildMachine ⟨[("a", "b")], [⟨"b", false, true, 2⟩, ⟨"b", true, false, 1⟩], [], "a"⟩
        = .error (.duplicateExitAction "b") :=
  ⟨rfl, rfl⟩

/-- Claim C4: on a declared `(cur, t)` pair, a `transition` call performs
exactly the spec's fixed, total step order — guard, exit action, enter
action, commit, each skipped only when its metadata is absent
(`specStepOrder`); in particular if the exit action raises (the guard
having passed), the enter action is never invoked and `__state__` is
unchanged, and any failure outcome leaves `__state__` unchanged. -/
theorem c4_step_order {E : Type} (tbl : Table) (cur : String) (row : Row)
    (t : String) (trn : Trans) (ev : E) (beh : Beh E)
    (h1 : aget tbl cur = some row) (h2 : row.isEmpty = false)
    (h3 : aget row t = some trn) :
    transitionF tbl cur (some t) ev beh = specStepOrder trn cur t ev beh
    ∧ (∀ a, trn.beginning_state.on_exit = some a → beh.actRaises a ev = true →
        (∀ g, trn.end_state.guard = some g → beh.guardRet g = .isBool true) →
        (∀ b ev2, Step.enterAct b ev2 ∉ (transitionF tbl cur (some t) ev beh).1)
        ∧ (transitionF tbl cur (some t) ev beh).2.2 = cur)
    ∧ (∀ f, (transitionF tbl cur (some t) ev beh).2.1 = some f →
        (transitionF tbl cur (some t) ev beh).2.2 = cur) := by
  have hd := transitionF_declared tbl cur row t trn ev beh h1 h2 h3
  refine ⟨by rw [hd]; exact runSteps_eq_spec trn cur t ev beh, ?_, ?_⟩
  · intro a hx hra hgp
    rw [hd]
    unfold runSteps
    cases hg : trn.end_state.guard with
    | none =>
        unfold actPhase
        simp [hx, hra]
    | some g =>
        have := hgp g hg
        unfold actPhase
        simp [this, hx, hra, prependStep]
  · intro f hf
    exact transitionF_fail tbl cur (some t) ev beh f hf

/-- Witness for C4 at a concrete table: begin state with exit action `1`,
end state with enter action `2` and an accepting guard, all actions
raising — the call performs the spec ordering, the enter action never
appears in the trace, and the state is unchanged. -/
theorem c4_witness :
    transitionF tblW "a" (some "b") (0 : Nat) behRaise
        = specStepOrder trnW "a" "b" (0 : Nat) behRaise
    ∧ ((∀ b ev2, Step.enterAct b ev2 ∉
          (transitionF tblW "a" (some "b") (0 : Nat) behRaise).1)
        ∧ (transitionF tblW "a" (some "b") (0 : Nat) behRaise).2.2 = "a") := by
  have h := c4_step_order tblW "a" [("b", trnW)] "b" trnW (0 : Nat) behRaise
    rfl rfl rfl
  refine ⟨h.1, h.2.1 1 rfl rfl ?_⟩
  intro g hgg
  cases hgg
  rfl

/-- Claim C5: when the declared `(cur, t)` pair's end state carries a
guard, the guard is evaluated before any action runs (it is the first
recorded step); a non-boolean return fails the call with the
guard-contract-violation error and a `False` return fails it with the
guard-rejected error, in both cases with no action invoked (the trace is
exactly the guard evaluation) and `__state__` unchanged. -/
theorem c5_guard_gatekeeping {E : Type} (tbl : Table) (cur : String)
    (row : Row) (t : String) (trn : Trans) (g : Nat) (ev : E) (beh : Beh E)
    (h1 : aget tbl cur = some row) (h2 : row.isEmpty = false)
    (h3 : aget row t = some trn) (hg : trn.end_state.guard = some g) :
    (transitionF tbl cur (some t) ev beh).1.head? = some (.guardEval g)
    ∧ (beh.guardRet g = .nonBool →
        transitionF tbl cur (some t) ev beh =
          ([.guardEval g], some .guardContractViolation, cur))
    ∧ (beh.guardRet g = .isBool false →
        transitionF tbl cur (some t) ev beh =
          ([.guardEval g], some (.guardRejected cur (some t)), cur)) := by
  have hd := transitionF_declared tbl cur row t trn ev beh h1 h2 h3
  rw [hd]
  unfold runSteps
  cases hr : beh.guardRet g with
  | nonBool =>
      refine ⟨by simp [hg, hr], fun _ => by simp [hg, hr], fun hc => ?_⟩
      cases hc
  | isBool b =>
      cases b
      · refine ⟨by simp [hg, hr], fun hc => ?_, fun _ => by simp [hg, hr]⟩
        cases hc
      · refine ⟨by simp [hg, hr, prependStep], fun hc => ?_, fun hc => ?_⟩
        · cases hc
        · cases hc

/-- Witness for C5: with a guard returning a non-boolean value, the call
evaluates the guard first and fails with the contract-violation error,
leaving the state unchanged with no action in the trace. -/
theorem c5_witness :
    (transitionF tblW "a" (some "b") (0 : Nat) behNB).1.head?
        = some (.guardEval 10)
    ∧ transitionF tblW "a" (some "b") (0 : Nat) behNB
        = ([.guardEval 10], some .guardContractViolation, "a") := by
  have h := c5_guard_gatekeeping tblW "a" [("b", trnW)] "b" trnW 10 (0 : Nat)
    behNB rfl rfl rfl rfl
  exact ⟨h.1, h.2.1 rfl⟩

/-- Claim C6: for a built machine run from state `S`, `transition(to=T)`
fails with the invalid-current-state error when `S` never appears as the
begin endpoint of a declared pair (terminal or corrupted state), and with
the illegal-transition error when `S` has outgoing transitions but
`(S, T)` is not a declared pair; both failures leave the state unchanged
and run nothing. -/
theorem c6_lookup_failure_mapping {E : Type} (sp : MachineSpec) (m : Machine)
    (hm : buildMachine sp = .ok m) (S T : String) (ev : E) (beh : Beh E) :
    (S ∉ sp.transitions.map Prod.fst →
      transitionF m.table S (some T) ev beh =
        ([], some (.invalidCurrentState S), S))
    ∧ (S ∈ sp.transitions.map Prod.fst → (S, T) ∉ sp.transitions →
      transitionF m.table S (some T) ev beh =
        ([], some (.illegalTransition S (some T)), S)) := by
  obtain ⟨us, sm, hus, hsm, hmeq⟩ := buildMachine_ok sp m hm
  have htbl : m.table = createLookupTable sm sp.transitions := by rw [hmeq]
  constructor
  · intro hout
    cases hag : aget m.table S with
    | some r =>
        exfalso
        apply hout
        rw [← createLookupTable_outer sm sp.transitions S, ← htbl, hag]
        rfl
    | none => unfold transitionF; rw [hag]
  · intro hmem hpair
    have hsome : (aget m.table S).isSome = true := by
      rw [htbl, createLookupTable_outer sm sp.transitions S]
      exact hmem
    cases hag : aget m.table S with
    | none => rw [hag] at hsome; cases hsome
    | some row =>
        have hrow_ne : row ≠ [] := by
          rw [htbl] at hag
          exact createLookupTable_good sm sp.transitions S row hag
        have hrow_e : row.isEmpty = false := by
          cases row
          · exact absurd rfl hrow_ne
          · rfl
        have hT : aget row T = none := by
          cases hT0 : aget row T with
          | none => rfl
          | some trn =>
              exfalso
              apply hpair
              rw [← createLookupTable_pair sm sp.transitions S T, ← htbl]
              simp [pairGet, hag, hT0]
        unfold transitionF
        rw [hag]
        simp [hrow_e, hT]

/-- Witness for C6 on the concrete machine `mW`: from the undeclared state
`z` the call fails with invalid-current-state, and from `a` asking for the
undeclared pair `(a, a)` it fails with illegal-transition. -/
theorem c6_witness :
    transitionF mW.table "z" (some "b") (0 : Nat) behW =
      ([], some (.invalidCurrentState "z"), "z")
    ∧ transitionF mW.table "a" (some "a") (0 : Nat) behW =
      ([], some (.illegalTransition "a" (some "a")), "a") :=
  ⟨(c6_lookup_failure_mapping spW mW rfl "z" "b" (0 : Nat) behW).1 (by decide),
   (c6_lookup_failure_mapping spW mW rfl "a" "a" (0 : Nat) behW).2 (by decide)
     (by decide)⟩

/-- Claim C10: calling `transition` with the `to` argument left at its
`None` default, on a machine whose current state has declared outgoing
transitions, fails with the illegal-transition error, records no guard and
no action step, and returns the machine unchanged. -/
theorem c10_default_to_argument {E : Type} (sp : MachineSpec) (m : Machine)
    (hm : buildMachine sp = .ok m) (ev : E) (beh : Beh E)
    (hS : m.state ∈ sp.transitions.map Prod.fst) :
    m.transition none ev beh =
      ([], some (.illegalTransition m.state none), m) := by
  obtain ⟨us, sm, hus, hsm, hmeq⟩ := buildMachine_ok sp m hm
  have htbl : m.table = createLookupTable sm sp.transitions := by rw [hmeq]
  have hsome : (aget m.table m.state).isSome = true := by
    rw [htbl, createLookupTable_outer sm sp.transitions m.state]
    exact hS
  cases hag : aget m.table m.state with
  | none => rw [hag] at hsome; cases hsome
  | some row =>
      have hrow_ne : row ≠ [] := by
        rw [htbl] at hag
        exact createLookupTable_good sm sp.transitions m.state row hag
      have hrow_e : row.isEmpty = false := by
        cases row
        · exact absurd rfl hrow_ne
        · rfl
      have hF : transitionF m.table m.state none ev beh =
          ([], some (.illegalTransition m.state none), m.state) := by
        unfold transitionF
        rw [hag]
        simp [hrow_e]
      unfold Machine.transition
      rw [hF]

/-- Witness for C10: on `mW` (current state `a`, which has the outgoing
pair `(a, b)`), the defaulted call fails with illegal-transition and
returns the machine unchanged. -/
theorem c10_witness :
    mW.transition none (0 : Nat) behW =
      (([] : List (Step Nat)), some (.illegalTransition "a" none), mW) :=
  c10_default_to_argument spW mW rfl (0 : Nat) behW (by decide)

/-- Counterexample to claim C8 as stated: construction does not require
the initial state to appear as an endpoint of the declared transitions —
with transitions `[(a, b)]` and declared initial state `z`, construction
succeeds, produces a machine, and `get_state()` returns `z`, which is
outside the derived state universe. -/
theorem c8_counterexample :
    ∃ m, buildMachine ⟨[("a", "b")], [], [], "z"⟩ = .ok m
      ∧ m.get_state = "z"
      ∧ "z" ∉ collectStates [("a", "b")] :=
  ⟨⟨[("a", [("b", ⟨emptyMeta, emptyMeta⟩)])], "z"⟩, rfl, rfl, by decide⟩

/-- Claim C8 (amended): construction performs no validation of the
declared initial state; `get_state()` immediately after construction
equals the declared initial state (whether or not it is an endpoint), and
every successful `transition` commits `current_state` to the end state of
a declared pair, hence to a member of the derived state universe. -/
theorem c8_amended_reachability (sp : MachineSpec) (m : Machine)
    (hm : buildMachine sp = .ok m) :
    m.get_state = sp.initial
    ∧ ∀ (E : Type) (S T : String) (ev : E) (beh : Beh E)
        (tr : List (Step E)) (m' : Machine),
        Machine.transition ⟨m.table, S⟩ (some T) ev beh = (tr, none, m') →
        m'.get_state = T ∧ (S, T) ∈ sp.transitions ∧
          T ∈ collectStates sp.transitions := by
  obtain ⟨us, sm, hus, hsm, hmeq⟩ := buildMachine_ok sp m hm
  constructor
  · rw [hmeq]; rfl
  · intro E S T ev beh tr m' h
    have htbl : m.table = createLookupTable sm sp.transitions := by rw [hmeq]
    have hget : m'.get_state = T :=
      transition_success_state ⟨m.table, S⟩ T ev beh tr m' h
    have hres : (transitionF m.table S (some T) ev beh).2.1 = none := by
      have hc := congrArg (fun x => x.2.1) h
      simp only [Machine.transition] at hc
      exact hc
    have hpair : (pairGet m.table S T).isSome = true :=
      transitionF_ok_pair m.table S T ev beh hres
    have hmem : (S, T) ∈ sp.transitions := by
      rw [htbl, createLookupTable_pair sm sp.transitions S T] at hpair
      exact hpair
    exact ⟨hget, hmem, (mem_collectStates sp.transitions T).mpr
      ⟨(S, T), hmem, Or.inr rfl⟩⟩

/-- Witness for the amended C8 on `spW`/`mW`: `get_state` after
construction is the declared initial state `a`, and the successful
transition `a → b` lands on the declared endpoint `b`. -/
theorem c8_amended_witness :
    mW.get_state = "a"
    ∧ ((⟨mW.table, "b"⟩ : Machine).get_state = "b"
        ∧ ("a", "b") ∈ spW.transitions
        ∧ "b" ∈ collectStates spW.transitions) := by
  have h := c8_amended_reachability spW mW rfl
  exact ⟨h.1, h.2 Nat "a" "b" 0 behW [Step.commitStep "b"] ⟨mW.table, "b"⟩ rfl⟩

/-- Claim C9: duplicate `(begin, end)` pairs in the declared transition
list are idempotent — building the machine from the list with duplicates
removed yields exactly the same result (the same transition table, the
same initial state, and the same configuration-error behaviour) as
building it from the original list; in particular duplicates cause no
configuration error that the deduplicated list would not cause. -/
theorem c9_duplicate_pairs_idempotent (sp : MachineSpec) :
    buildMachine ⟨pdedup sp.transitions, sp.actions, sp.guards, sp.initial⟩
      = buildMachine sp := by
  show (match getStates (pdedup sp.transitions) with
    | .error e => .error e
    | .ok states =>
        match createStateMap sp.actions sp.guards states with
        | .error e => .error e
        | .ok sm =>
            .ok (⟨createLookupTable sm (pdedup sp.transitions), sp.initial⟩ :
              Machine)) = buildMachine sp
  unfold buildMachine
  rw [← getStates_dedup sp.transitions]
  cases hus : getStates sp.transitions with
  | error e => simp only [hus]
  | ok us =>
      simp only [hus]
      cases hsm : createStateMap sp.actions sp.guards us with
      | error e => simp only [hsm]
      | ok sm =>
          simp only [hsm]
          rw [← createLookupTable_dedup sm sp.transitions]

/-- Claim C7: the valid state universe is exactly the set of distinct
endpoints of the declared transition list; an Action or Guard bound to a
state outside that universe makes construction fail (no machine is
produced), and when such a binding is the first offending one processed,
the failure is precisely the corresponding unknown-state configuration
error. -/
theorem c7_state_universe_and_unknown_bindings :
    (∀ (ts : List (String × String)) (us : List String),
        getStates ts = .ok us →
        ∀ s, s ∈ us ↔ ∃ p ∈ ts, s = p.1 ∨ s = p.2)
    ∧ (∀ (sp : MachineSpec) (us : List String),
        getStates sp.transitions = .ok us →
        ((∃ a ∈ sp.actions, a.state ∉ us) ∨ (∃ g ∈ sp.guards, g.state ∉ us)) →
        ∃ e, buildMachine sp = .error e)
    ∧ (∀ (sp : MachineSpec) (us : List String) (pre : List ActionB)
        (a : ActionB) (post : List ActionB) (smp : StateMap),
        getStates sp.transitions = .ok us →
        sp.actions = pre ++ a :: post →
        foldE (processAction us) (seedMap us) pre = .ok smp →
        a.state ∉ us →
        buildMachine sp = .error (.unknownStateAction a.state))
    ∧ (∀ (sp : MachineSpec) (us : List String) (sm1 : StateMap)
        (pre : List GuardB) (g : GuardB) (post : List GuardB) (smp : StateMap),
        getStates sp.transitions = .ok us →
        foldE (processAction us) (seedMap us) sp.actions = .ok sm1 →
        sp.guards = pre ++ g :: post →
        foldE (processGuard us) sm1 pre = .ok smp →
        g.state ∉ us →
        buildMachine sp = .error (.unknownStateGuard g.state)) := by
  refine ⟨?_, ?_, ?_, ?_⟩
  · intro ts us hus s
    rw [getStates_ok ts us hus]
    exact mem_collectStates ts s
  · intro sp us hus hbad
    rcases hbad with ⟨a, ha, hbad⟩ | ⟨g, hg, hbad⟩
    · obtain ⟨e, he⟩ := foldE_actions_err us sp.actions (seedMap us) a ha hbad
      refine ⟨e, ?_⟩
      unfold buildMachine createStateMap
      simp [hus, he]
    · cases hact : foldE (processAction us) (seedMap us) sp.actions with
      | error e =>
          refine ⟨e, ?_⟩
          unfold buildMachine createStateMap
          simp [hus, hact]
      | ok sm1 =>
          obtain ⟨e, he⟩ := foldE_guards_err us sp.guards sm1 g hg hbad
          refine ⟨e, ?_⟩
          unfold buildMachine createStateMap
          simp [hus, hact, he]
  · intro sp us pre a post smp hus hacts hpre hbad
    have hfold : foldE (processAction us) (seedMap us) sp.actions =
        .error (.unknownStateAction a.state) := by
      rw [hacts, foldE_append, hpre]
      simp only [foldE]
      rw [processAction_bad us smp a hbad]
    unfold buildMachine createStateMap
    simp [hus, hfold]
  · intro sp us sm1 pre g post smp hus hact hguards hpre hbad
    have hfold : foldE (processGuard us) sm1 sp.guards =
        .error (.unknownStateGuard g.state) := by
      rw [hguards, foldE_append, hpre]
      simp only [foldE]
      rw [processGuard_bad us smp g hbad]
    unfold buildMachine createStateMap
    simp [hus, hact, hfold]

/-- Witness for C7: the universe of `spW` is `[a, b]`; an action bound to
the undeclared state `zz` makes construction fail with precisely the
unknown-state error, and a guard bound to `zz` likewise. -/
theorem c7_witness :
    ("a" ∈ collectStates [("a", "b")] ∧ "zz" ∉ collectStates [("a", "b")])
    ∧ buildMachine ⟨[("a", "b")], [⟨"zz", true, false, 1⟩], [], "a"⟩
        = .error (.unknownStateAction "zz")
    ∧ buildMachine ⟨[("a", "b")], [], [⟨"zz", 7⟩], "a"⟩
        = .error (.unknownStateGuard "zz") := by
  refine ⟨⟨by decide, by decide⟩, ?_, ?_⟩
  · exact c7_state_universe_and_unknown_bindings.2.2.1
      ⟨[("a", "b")], [⟨"zz", true, false, 1⟩], [], "a"⟩
      (collectStates [("a", "b")]) [] ⟨"zz", true, false, 1⟩ [] (seedMap (collectStates [("a", "b")]))
      rfl rfl rfl (by decide)
  · exact c7_state_universe_and_unknown_bindings.2.2.2
      ⟨[("a", "b")], [], [⟨"zz", 7⟩], "a"⟩
      (collectStates [("a", "b")]) (seedMap (collectStates [("a", "b")]))
      [] ⟨"zz", 7⟩ [] (seedMap (collectStates [("a", "b")]))
      rfl rfl rfl rfl (by decide)

end Fsm
